import Mathlib

/-!
Shallow embedding of the pack-file decoder of `mercury` (file
`src/mercury/src/internal/pack/decode.rs`, `impl Pack`), over byte streams
modelled as `List Nat` (each element a byte value, `< 256`).

External collaborators (the spec treats them as out of scope, consumed through
narrow interfaces): the SHA-1 implementation is an abstract parameter
`sha1 : List Nat → List Nat`, and the zlib inflater is an abstract parameter
`inflate : List Nat → Option (List Nat × Nat)` returning the decompressed
bytes together with the number of compressed input bytes consumed from the
front of the stream.

The helper crates of the repository (`utils` codecs, `CacheObject`,
`ObjectType`, the hashing `Wrapper`) are not part of the given sources; the
corresponding definitions are modelled from the spec and marked as such.

Error payloads (the `format!` message strings of the Rust code) are dropped:
only the error kind is modelled.  Rust `panic!` / `.unwrap()` failures are
modelled as explicit outcomes distinct from returned `Err` values.
-/

namespace MercuryPack

/-- The error kinds of `venus::errors::GitError` used by the decoder
(message payloads dropped). -/
inductive GitError where
  | InvalidPackHeader
  | InvalidPackFile
  | InvalidObjectInfo
  | DeltaObjectError
deriving DecidableEq, Repr

/-- Modelled from the spec: `ObjectType` is a tagged variant with four base
types and two delta types (§3 of the spec). -/
inductive ObjectType where
  | Commit
  | Tree
  | Blob
  | Tag
  | OffsetDelta
  | HashDelta
deriving DecidableEq, Repr

/-- Modelled from the spec: wire type codes 1,2,3,4,6,7 are
Commit, Tree, Blob, Tag, OffsetDelta, HashDelta; codes 0 and 5 (and anything
else) are invalid, a structural inconsistency (`InvalidObjectInfo`, §7). -/
def ObjectType.from_u8 (n : Nat) : Except GitError ObjectType :=
  match n with
  | 1 => .ok .Commit
  | 2 => .ok .Tree
  | 3 => .ok .Blob
  | 4 => .ok .Tag
  | 6 => .ok .OffsetDelta
  | 7 => .ok .HashDelta
  | _ => .error .InvalidObjectInfo

/-- Modelled from the spec: the object record (`CacheObject` of
`cache_object.rs`), with the fields used by `decode.rs` (§3 of the spec).
`mem_recorder` is the optional handle to the shared atomic byte counter,
modelled as an opaque `Option Nat`.  Field defaults model
`CacheObject::default()` (`SHA1::default()` is twenty zero bytes). -/
structure CacheObject where
  base_offset : Nat := 0
  base_ref : List Nat := List.replicate 20 0
  data_decompress : List Nat := []
  obj_type : ObjectType := .Blob
  offset : Nat := 0
  hash : List Nat := List.replicate 20 0
  mem_recorder : Option Nat := none
deriving DecidableEq, Repr

/-- Outcome of a fallible decoder step: a returned value, a returned
`Err(GitError)`, a `panic!`/`.unwrap()` carrying a `GitError`, or a plain
panic on an io error (`.unwrap()` on a `std::io` result). -/
inductive DResult (α : Type) where
  | ok (a : α)
  | err (e : GitError)
  | panicErr (e : GitError)
  | ioPanic
deriving DecidableEq, Repr

/-- Read exactly `n` bytes from the front of the stream
(`Read::read_exact` / `utils::read_bytes`): the bytes read and the rest,
or `none` when fewer than `n` bytes remain. -/
def takeExact (n : Nat) (s : List Nat) : Option (List Nat × List Nat) :=
  if n ≤ s.length then some (s.take n, s.drop n) else none

/-- Modelled from the spec: little-endian base-128 varint
(`utils::read_varint_le`, §4.1): each byte contributes its low 7 bits,
least-significant group first; the MSB is the continuation flag.
Accumulator-passing loop; returns (value, bytes consumed, rest). -/
def read_varint_le_go : List Nat → Nat → Nat → Nat → Option (Nat × Nat × List Nat)
  | [], _, _, _ => none
  | b :: rest, shift, acc, cnt =>
    let acc' := acc + b % 128 * 2 ^ shift
    if b < 128 then some (acc', cnt + 1, rest)
    else read_varint_le_go rest (shift + 7) acc' (cnt + 1)

/-- Modelled from the spec (§4.1): `utils::read_varint_le`. -/
def read_varint_le (s : List Nat) : Option (Nat × Nat × List Nat) :=
  read_varint_le_go s 0 0 0

/-- Modelled from the spec (§4.1): Git's canonical offset encoding
(`utils::read_offset_encoding`): 7-bit groups, MSB continuation, with the
bias added at every continuation step.  Returns (value, bytes consumed,
rest). -/
def read_offset_go : List Nat → Nat → Nat → Option (Nat × Nat × List Nat)
  | [], _, _ => none
  | b :: rest, value, cnt =>
    let v := value * 128 + b % 128
    if b < 128 then some (v, cnt + 1, rest)
    else read_offset_go rest (v + 1) (cnt + 1)

/-- Modelled from the spec (§4.1): `utils::read_offset_encoding`. -/
def read_offset_encoding (s : List Nat) : Option (Nat × Nat × List Nat) :=
  read_offset_go s 0 0

/-- Modelled from the spec (§4.1): the copy-instruction partial-int codec
(`utils::read_partial_int`): iterate over `n` byte slots; a slot is present
when the current low bit of `present` is set, contributing `b * 2^(8*idx)`;
`present` shifts right one bit per slot either way.  Returns
(value, remaining flag bits, rest). -/
def read_partial_int_go : List Nat → Nat → Nat → Nat → Nat → Option (Nat × Nat × List Nat)
  | s, 0, present, _, value => some (value, present, s)
  | s, n + 1, present, idx, value =>
    if present % 2 = 1 then
      match s with
      | [] => none
      | b :: rest => read_partial_int_go rest n (present / 2) (idx + 1) (value + b * 2 ^ (8 * idx))
    else
      read_partial_int_go s n (present / 2) (idx + 1) value

/-- Modelled from the spec (§4.1): `utils::read_partial_int`. -/
def read_partial_int (s : List Nat) (bytes : Nat) (present : Nat) : Option (Nat × Nat × List Nat) :=
  read_partial_int_go s bytes present 0 0

/-- Modelled from the spec (§4.1): the type+size varint of an object header
(`utils::read_type_and_varint_size`): the first byte carries the 3 type bits
(bits 6..4) and the low 4 size bits; continuation bytes contribute 7 bits
each, little-endian, starting at shift 4.  Returns
(type bits, size, bytes consumed, rest). -/
def read_type_and_varint_size (s : List Nat) : Option (Nat × Nat × Nat × List Nat) :=
  match s with
  | [] => none
  | b :: rest =>
    let t := b / 16 % 8
    let sz := b % 16
    if b < 128 then some (t, sz, 1, rest)
    else
      match read_varint_le_go rest 4 sz 1 with
      | none => none
      | some (size, cnt, rest') => some (t, size, cnt, rest')

/-- `u32::from_be_bytes` on a list of bytes (big-endian). -/
def be32 (l : List Nat) : Nat := l.foldl (fun acc b => acc * 256 + b) 0

/-- Modelled from the spec: `utils::is_eof`, true when no input remains. -/
def is_eof (s : List Nat) : Bool := s.isEmpty

/-- Decimal ASCII digits of a number, most significant first
(fuel-based accumulator loop; fuel `n + 1` always suffices). -/
def asciiDigitsGo : Nat → Nat → List Nat → List Nat
  | 0, _, acc => acc
  | fuel + 1, n, acc =>
    if n < 10 then (48 + n) :: acc
    else asciiDigitsGo fuel (n / 10) ((48 + n % 10) :: acc)

/-- Decimal ASCII representation of a `Nat`. -/
def asciiDigits (n : Nat) : List Nat := asciiDigitsGo (n + 1) n []

/-- ASCII bytes of the Git object type name.  Delta types never reach the
hash computation (only base types carry canonical content). -/
def obj_type_ascii : ObjectType → List Nat
  | .Commit => [99, 111, 109, 109, 105, 116]
  | .Tree => [116, 114, 101, 101]
  | .Blob => [98, 108, 111, 98]
  | .Tag => [116, 97, 103]
  | .OffsetDelta => []
  | .HashDelta => []

/-- Modelled from the spec: the canonical Git object header
prepended before hashing, the ASCII bytes of the type name, a space (32),
the decimal length, and a NUL byte (§4.7, §8 of the spec). -/
def object_header (t : ObjectType) (len : Nat) : List Nat :=
  obj_type_ascii t ++ [32] ++ asciiDigits len ++ [0]

/-- Modelled from the spec: `utils::calculate_object_hash`, the SHA-1 of the
canonical header followed by the content (§4.7, §8 of the spec). -/
def calculate_object_hash (sha1 : List Nat → List Nat) (t : ObjectType) (data : List Nat) :
    List Nat :=
  sha1 (object_header t data.length ++ data)

/-- Modelled from the spec: `CacheObject::new_for_undeltified`: a base-type
record with canonical content and its hash (§3: a record transferred to the
cache is in a base type state and has a valid hash). -/
def CacheObject.new_for_undeltified (sha1 : List Nat → List Nat) (t : ObjectType)
    (data : List Nat) (offset : Nat) : CacheObject :=
  { obj_type := t, data_decompress := data, offset := offset,
    hash := calculate_object_hash sha1 t data }

/-- `Pack::check_header` (decode.rs lines 92-172): read the 12-byte prefix in
three `read_exact` steps of 4 bytes.  A short read at any step yields
`InvalidPackHeader`; a magic other than `PACK` yields `InvalidPackHeader`;
a big-endian version word other than 2 yields `InvalidPackFile` (line 135 of
the source).  On success returns (object count, collected header bytes,
rest of the stream). -/
def check_header (input : List Nat) : Except GitError (Nat × List Nat × List Nat) :=
  match takeExact 4 input with
  | none => .error .InvalidPackHeader
  | some (magic, r1) =>
    if magic ≠ [80, 65, 67, 75] then .error .InvalidPackHeader
    else
      match takeExact 4 r1 with
      | none => .error .InvalidPackHeader
      | some (vb, r2) =>
        if be32 vb ≠ 2 then .error .InvalidPackFile
        else
          match takeExact 4 r2 with
          | none => .error .InvalidPackHeader
          | some (nb, r3) => .ok (be32 nb, magic ++ vb ++ nb, r3)

/-- `Pack::decompress_data` (decode.rs lines 186-213): run the zlib inflater
over the front of the stream; a decompression failure yields
`InvalidPackFile`, an inflated length different from `expected_size` yields
`InvalidPackFile`, otherwise the decompressed bytes and the consumed input
byte count (`total_in`) are returned. -/
def decompress_data (inflate : List Nat → Option (List Nat × Nat)) (pack : List Nat)
    (expected_size : Nat) : Except GitError (List Nat × Nat) :=
  match inflate pack with
  | none => .error .InvalidPackFile
  | some (buf, total_in) =>
    if buf.length ≠ expected_size then .error .InvalidPackFile
    else .ok (buf, total_in)

/-- The `reserve_delta_data` closure of `Pack::decode_pack_object`
(decode.rs lines 243-255): re-read the base-size and result-size varints
from the delta payload (each `.unwrap()`ed, hence `none` models the panic)
and rehome the data into a buffer of capacity `result_size`.  Capacity is
not observable in the list model, so the byte content is unchanged. -/
def reserve_delta_data (data : List Nat) : Option (List Nat) :=
  match read_varint_le data with
  | none => none
  | some (_, _, r1) =>
    match read_varint_le r1 with
    | none => none
    | some _ => some data

/-- `Pack::decode_pack_object` (decode.rs lines 226-308): parse one entry at
absolute offset `offset`.  Returns the record, the advanced offset cursor and
the rest of the stream.  For `OffsetDelta`, the base offset is
`init_offset - delta_offset`; on underflow the source constructs
`GitError::InvalidObjectInfo` with `ok_or_else` and then `.unwrap()`s it
(decode.rs lines 271-276), modelled as `panicErr`. -/
def decode_pack_object (sha1 : List Nat → List Nat)
    (inflate : List Nat → Option (List Nat × Nat))
    (s : List Nat) (offset : Nat) : DResult (CacheObject × Nat × List Nat) :=
  let init_offset := offset
  match read_type_and_varint_size s with
  | none => .err .InvalidPackFile
  | some (type_bits, size, consumed, s1) =>
    let offset := offset + consumed
    match ObjectType.from_u8 type_bits with
    | .error e => .err e
    | .ok t =>
      match t with
      | .Commit | .Tree | .Blob | .Tag =>
        match decompress_data inflate s1 size with
        | .error e => .err e
        | .ok (data, raw_size) =>
          .ok (CacheObject.new_for_undeltified sha1 t data init_offset,
               offset + raw_size, s1.drop raw_size)
      | .OffsetDelta =>
        match read_offset_encoding s1 with
        | none => .ioPanic
        | some (delta_offset, bytes, s2) =>
          let offset := offset + bytes
          match decompress_data inflate s2 size with
          | .error e => .err e
          | .ok (data, raw_size) =>
            let offset := offset + raw_size
            if delta_offset ≤ init_offset then
              match reserve_delta_data data with
              | none => .ioPanic
              | some d =>
                .ok ({ base_offset := init_offset - delta_offset, data_decompress := d,
                       obj_type := .OffsetDelta, offset := init_offset, mem_recorder := none },
                     offset, s2.drop raw_size)
            else .panicErr .InvalidObjectInfo
      | .HashDelta =>
        match takeExact 20 s1 with
        | none => .ioPanic
        | some (buf_ref, s2) =>
          let offset := offset + 20
          match decompress_data inflate s2 size with
          | .error e => .err e
          | .ok (data, raw_size) =>
            match reserve_delta_data data with
            | none => .ioPanic
            | some d =>
              .ok ({ base_ref := buf_ref, data_decompress := d,
                     obj_type := .HashDelta, offset := init_offset, mem_recorder := none },
                   offset + raw_size, s2.drop raw_size)

/-- Failure modes of `Pack::rebuild_delta`: a `panic!` carrying a
`GitError::DeltaObjectError` (invalid data instruction, out-of-range copy),
a failed `assert_eq!` (base-size or result-size mismatch), or an `.unwrap()`
on an io error (truncated instruction stream). -/
inductive RErr where
  | deltaObjectError
  | assertFail
  | ioPanic
deriving DecidableEq, Repr

/-- The instruction loop of `Pack::rebuild_delta` (decode.rs lines 533-582),
with explicit fuel (the loop consumes at least the instruction byte per
iteration, so fuel equal to the stream length suffices, see
`rebuild_delta_loop`).  MSB-0 is a data (insert) instruction: byte 0 panics
with `DeltaObjectError`, otherwise `inst` literal bytes are appended.  MSB-1
is a copy instruction: offset (4 byte slots) and size (3 byte slots) are read
via the partial-int codec seeded with the instruction byte as flag bits, a
decoded size of 0 becomes 0x10000, and `base[off .. off+size]` is appended,
panicking with `DeltaObjectError` when the slice is out of range. -/
def rebuild_delta_go (base : List Nat) : Nat → List Nat → List Nat → Except RErr (List Nat)
  | _, [], result => .ok result
  | 0, _ :: _, _ => .error .ioPanic
  | fuel + 1, inst :: rest, result =>
    if inst < 128 then
      if inst = 0 then .error .deltaObjectError
      else
        match takeExact inst rest with
        | none => .error .ioPanic
        | some (dat, rest') => rebuild_delta_go base fuel rest' (result ++ dat)
    else
      match read_partial_int rest 4 inst with
      | none => .error .ioPanic
      | some (off, present, r1) =>
        match read_partial_int r1 3 present with
        | none => .error .ioPanic
        | some (size0, _, r2) =>
          let size := if size0 = 0 then 65536 else size0
          if off + size ≤ base.length then
            rebuild_delta_go base fuel r2 (result ++ (base.drop off).take size)
          else .error .deltaObjectError

/-- The instruction loop of `Pack::rebuild_delta`, at its natural fuel. -/
def rebuild_delta_loop (base s acc : List Nat) : Except RErr (List Nat) :=
  rebuild_delta_go base s.length s acc

/-- `Pack::rebuild_delta` (decode.rs lines 514-595): read the base-size and
result-size varints (each `.unwrap()`ed), `assert_eq!` the base length,
run the instruction loop, `assert_eq!` the result length, and build the new
record from `delta_obj` by struct update: reconstructed data, the base's
object type, the canonical hash, and `mem_recorder` reset to `None`. -/
def rebuild_delta (sha1 : List Nat → List Nat) (delta_obj base_obj : CacheObject) :
    Except RErr CacheObject :=
  match read_varint_le delta_obj.data_decompress with
  | none => .error .ioPanic
  | some (base_size, _, s1) =>
    match read_varint_le s1 with
    | none => .error .ioPanic
    | some (result_size, _, s2) =>
      let base_info := base_obj.data_decompress
      if base_info.length = base_size then
        match rebuild_delta_loop base_info s2 [] with
        | .error e => .error e
        | .ok result =>
          if result_size = result.length then
            .ok { delta_obj with
                  data_decompress := result,
                  obj_type := base_obj.obj_type,
                  hash := calculate_object_hash sha1 base_obj.obj_type result,
                  mem_recorder := none }
          else .error .assertFail
      else .error .assertFail

/-- Follows the spec's words (§4.7, step 3): the content produced by applying
a copy/insert instruction stream to the base data, as the concatenation of
the chunk contributed by the first instruction and the content produced by
the rest of the stream.  Fuel-based like the source loop. -/
def apply_delta_go (base : List Nat) : Nat → List Nat → Option (List Nat)
  | _, [] => some []
  | 0, _ :: _ => none
  | fuel + 1, inst :: rest =>
    if inst < 128 then
      if inst = 0 then none
      else
        match takeExact inst rest with
        | none => none
        | some (dat, rest') => (apply_delta_go base fuel rest').map (dat ++ ·)
    else
      match read_partial_int rest 4 inst with
      | none => none
      | some (off, present, r1) =>
        match read_partial_int r1 3 present with
        | none => none
        | some (size0, _, r2) =>
          let size := if size0 = 0 then 65536 else size0
          if off + size ≤ base.length then
            (apply_delta_go base fuel r2).map ((base.drop off).take size ++ ·)
          else none

/-- Follows the spec's words (§4.7, step 3), at its natural fuel. -/
def apply_delta_spec_loop (base s : List Nat) : Option (List Nat) :=
  apply_delta_go base s.length s

/-- Follows the spec's words (§4.7): read `base_size` and `result_size`
varints from the delta payload, require `len(base) = base_size`, apply the
instruction stream, and require the final result length to equal
`result_size`. -/
def apply_delta_spec (delta base : List Nat) : Option (List Nat) :=
  match read_varint_le delta with
  | none => none
  | some (base_size, _, s1) =>
    match read_varint_le s1 with
    | none => none
    | some (result_size, _, s2) =>
      if base.length = base_size then
        match apply_delta_spec_loop base s2 with
        | none => none
        | some r => if r.length = result_size then some r else none
      else none

/-- The driver's entry loop (`Pack::decode`, decode.rs lines 364-425), with
the threading, back-pressure and dispatch parts out of the model: parse `n`
entries in sequence, threading the stream and the absolute offset cursor and
collecting the parsed records.  Any failure of an entry aborts the loop. -/
def decode_entries (sha1 : List Nat → List Nat)
    (inflate : List Nat → Option (List Nat × Nat)) :
    Nat → List Nat → Nat → DResult (List CacheObject × List Nat × Nat)
  | 0, s, off => .ok ([], s, off)
  | n + 1, s, off =>
    match decode_pack_object sha1 inflate s off with
    | .ok (obj, off', s') =>
      (match decode_entries sha1 inflate n s' off' with
       | .ok (objs, s'', off'') => .ok (obj :: objs, s'', off'')
       | r => r)
    | .err e => .err e
    | .panicErr e => .panicErr e
    | .ioPanic => .ioPanic

/-- The serial driver of `Pack::decode` (decode.rs lines 313-463): check the
header, parse the `N` entries (offset cursor starting at 12), snapshot the
running hash of the wrapper — the SHA-1 over every byte consumed so far,
that is, over the header and all entry bytes (`Wrapper::final_hash`, modelled
from the spec §4.2) — then read the 20-byte trailer (`.unwrap()`ed, so a
short read is an io panic), compare it against the snapshot
(`InvalidPackFile` on mismatch), and require end of input (`InvalidPackFile`
otherwise).  The post-join assertions on the waitlist and cache are
concurrency bookkeeping outside this model. -/
def decode (sha1 : List Nat → List Nat) (inflate : List Nat → Option (List Nat × Nat))
    (input : List Nat) : DResult (List CacheObject × List Nat) :=
  match check_header input with
  | .error e => .err e
  | .ok (object_num, _, r) =>
    match decode_entries sha1 inflate object_num r 12 with
    | .err e => .err e
    | .panicErr e => .panicErr e
    | .ioPanic => .ioPanic
    | .ok (objs, rest, _) =>
      let render_hash := sha1 (input.take (input.length - rest.length))
      match takeExact 20 rest with
      | none => .ioPanic
      | some (trailer, rest') =>
        if render_hash ≠ trailer then .err .InvalidPackFile
        else if ¬ is_eof rest' then .err .InvalidPackFile
        else .ok (objs, trailer)

theorem takeExact_eq {n : Nat} {s d r : List Nat} (h : takeExact n s = some (d, r)) :
    d = s.take n ∧ r = s.drop n ∧ n ≤ s.length := by
  by_cases hn : n ≤ s.length
  · simp only [takeExact, if_pos hn, Option.some.injEq, Prod.mk.injEq] at h
    exact ⟨h.1.symm, h.2.symm, hn⟩
  · simp [takeExact, hn] at h

theorem takeExact_len {n : Nat} {s d r : List Nat} (h : takeExact n s = some (d, r)) :
    r.length ≤ s.length := by
  rw [(takeExact_eq h).2.1]
  simp

theorem read_partial_int_go_len :
    ∀ (n : Nat) (s : List Nat) (present idx value v p : Nat) (r : List Nat),
      read_partial_int_go s n present idx value = some (v, p, r) → r.length ≤ s.length := by
  intro n
  induction n with
  | zero =>
    intro s present idx value v p r h
    simp only [read_partial_int_go, Option.some.injEq, Prod.mk.injEq] at h
    rw [← h.2.2]
  | succ m ih =>
    intro s present idx value v p r h
    simp only [read_partial_int_go] at h
    split at h
    · cases s with
      | nil => simp at h
      | cons b rest =>
        have := ih rest (present / 2) (idx + 1) (value + b * 2 ^ (8 * idx)) v p r h
        simp only [List.length_cons]
        omega
    · exact ih s (present / 2) (idx + 1) value v p r h

theorem read_partial_int_len {s : List Nat} {bytes present v p : Nat} {r : List Nat}
    (h : read_partial_int s bytes present = some (v, p, r)) : r.length ≤ s.length :=
  read_partial_int_go_len bytes s present 0 0 v p r h

theorem read_varint_le_go_suffix :
    ∀ (s : List Nat) (shift acc cnt v c : Nat) (r : List Nat),
      read_varint_le_go s shift acc cnt = some (v, c, r) → r <:+ s := by
  intro s
  induction s with
  | nil => intro shift acc cnt v c r h; simp [read_varint_le_go] at h
  | cons b rest ih =>
    intro shift acc cnt v c r h
    simp only [read_varint_le_go] at h
    split at h
    · simp only [Option.some.injEq, Prod.mk.injEq] at h
      rw [← h.2.2]
      exact List.suffix_cons b rest
    · exact (ih _ _ _ v c r h).trans (List.suffix_cons b rest)

theorem read_varint_le_suffix {s : List Nat} {v c : Nat} {r : List Nat}
    (h : read_varint_le s = some (v, c, r)) : r <:+ s :=
  read_varint_le_go_suffix s 0 0 0 v c r h

theorem read_offset_go_suffix :
    ∀ (s : List Nat) (value cnt v c : Nat) (r : List Nat),
      read_offset_go s value cnt = some (v, c, r) → r <:+ s := by
  intro s
  induction s with
  | nil => intro value cnt v c r h; simp [read_offset_go] at h
  | cons b rest ih =>
    intro value cnt v c r h
    simp only [read_offset_go] at h
    split at h
    · simp only [Option.some.injEq, Prod.mk.injEq] at h
      rw [← h.2.2]
      exact List.suffix_cons b rest
    · exact (ih _ _ v c r h).trans (List.suffix_cons b rest)

theorem read_offset_encoding_suffix {s : List Nat} {v c : Nat} {r : List Nat}
    (h : read_offset_encoding s = some (v, c, r)) : r <:+ s :=
  read_offset_go_suffix s 0 0 v c r h

theorem read_type_and_varint_size_suffix {s : List Nat} {t sz c : Nat} {r : List Nat}
    (h : read_type_and_varint_size s = some (t, sz, c, r)) : r <:+ s := by
  cases s with
  | nil => simp [read_type_and_varint_size] at h
  | cons b rest =>
    simp only [read_type_and_varint_size] at h
    split at h
    · simp only [Option.some.injEq, Prod.mk.injEq] at h
      rw [← h.2.2.2]
      exact List.suffix_cons b rest
    · split at h
      · simp at h
      · simp only [Option.some.injEq, Prod.mk.injEq] at h
        rename_i size cnt rest' heq
        rw [← h.2.2.2]
        exact (read_varint_le_go_suffix rest 4 (b % 16) 1 size cnt rest' heq).trans
          (List.suffix_cons b rest)


theorem rebuild_delta_go_congr (base : List Nat) :
    ∀ (f₁ f₂ : Nat) (s acc : List Nat), s.length ≤ f₁ → s.length ≤ f₂ →
      rebuild_delta_go base f₁ s acc = rebuild_delta_go base f₂ s acc := by
  intro f₁
  induction f₁ with
  | zero =>
    intro f₂ s acc h1 _
    have hs : s = [] := List.length_eq_zero.mp (Nat.le_zero.mp h1)
    subst hs
    cases f₂ <;> rfl
  | succ m ih =>
    intro f₂ s acc h1 h2
    cases s with
    | nil => cases f₂ <;> rfl
    | cons inst rest =>
      cases f₂ with
      | zero => simp at h2
      | succ m₂ =>
        simp only [List.length_cons, Nat.add_le_add_iff_right] at h1 h2
        simp only [rebuild_delta_go]
        by_cases hi : inst < 128
        · simp only [if_pos hi]
          by_cases h0 : inst = 0
          · simp [h0]
          · simp only [if_neg h0]
            cases hte : takeExact inst rest with
            | none => rfl
            | some p =>
              obtain ⟨dat, rest'⟩ := p
              dsimp only
              have hlen : rest'.length ≤ rest.length := takeExact_len hte
              exact ih m₂ rest' (acc ++ dat) (le_trans hlen h1) (le_trans hlen h2)
        · simp only [if_neg hi]
          cases hp1 : read_partial_int rest 4 inst with
          | none => rfl
          | some p =>
            obtain ⟨off, present, r1⟩ := p
            dsimp only
            cases hp2 : read_partial_int r1 3 present with
            | none => rfl
            | some q =>
              obtain ⟨size0, p2, r2⟩ := q
              dsimp only
              have hlen : r2.length ≤ rest.length :=
                le_trans (read_partial_int_len hp2) (read_partial_int_len hp1)
              by_cases hr : off + (if size0 = 0 then 65536 else size0) ≤ base.length
              · simp only [if_pos hr]
                exact ih m₂ r2 _ (le_trans hlen h1) (le_trans hlen h2)
              · simp only [if_neg hr]

theorem apply_delta_go_congr (base : List Nat) :
    ∀ (f₁ f₂ : Nat) (s : List Nat), s.length ≤ f₁ → s.length ≤ f₂ →
      apply_delta_go base f₁ s = apply_delta_go base f₂ s := by
  intro f₁
  induction f₁ with
  | zero =>
    intro f₂ s h1 _
    have hs : s = [] := List.length_eq_zero.mp (Nat.le_zero.mp h1)
    subst hs
    cases f₂ <;> rfl
  | succ m ih =>
    intro f₂ s h1 h2
    cases s with
    | nil => cases f₂ <;> rfl
    | cons inst rest =>
      cases f₂ with
      | zero => simp at h2
      | succ m₂ =>
        simp only [List.length_cons, Nat.add_le_add_iff_right] at h1 h2
        simp only [apply_delta_go]
        by_cases hi : inst < 128
        · simp only [if_pos hi]
          by_cases h0 : inst = 0
          · simp [h0]
          · simp only [if_neg h0]
            cases hte : takeExact inst rest with
            | none => rfl
            | some p =>
              obtain ⟨dat, rest'⟩ := p
              dsimp only
              have hlen : rest'.length ≤ rest.length := takeExact_len hte
              rw [ih m₂ rest' (le_trans hlen h1) (le_trans hlen h2)]
        · simp only [if_neg hi]
          cases hp1 : read_partial_int rest 4 inst with
          | none => rfl
          | some p =>
            obtain ⟨off, present, r1⟩ := p
            dsimp only
            cases hp2 : read_partial_int r1 3 present with
            | none => rfl
            | some q =>
              obtain ⟨size0, p2, r2⟩ := q
              dsimp only
              have hlen : r2.length ≤ rest.length :=
                le_trans (read_partial_int_len hp2) (read_partial_int_len hp1)
              by_cases hr : off + (if size0 = 0 then 65536 else size0) ≤ base.length
              · simp only [if_pos hr]
                rw [ih m₂ r2 (le_trans hlen h1) (le_trans hlen h2)]
              · simp only [if_neg hr]

theorem rebuild_go_to_spec (base : List Nat) :
    ∀ (fuel : Nat) (s acc result : List Nat), s.length ≤ fuel →
      rebuild_delta_go base fuel s acc = .ok result →
      ∃ t, apply_delta_spec_loop base s = some t ∧ result = acc ++ t := by
  intro fuel
  induction fuel with
  | zero =>
    intro s acc result h1 h2
    have hs : s = [] := List.length_eq_zero.mp (Nat.le_zero.mp h1)
    subst hs
    simp only [rebuild_delta_go, Except.ok.injEq] at h2
    exact ⟨[], by simp [apply_delta_spec_loop, apply_delta_go], by simp [← h2]⟩
  | succ m ih =>
    intro s acc result h1 h2
    cases s with
    | nil =>
      simp only [rebuild_delta_go, Except.ok.injEq] at h2
      exact ⟨[], by simp [apply_delta_spec_loop, apply_delta_go], by simp [← h2]⟩
    | cons inst rest =>
      simp only [List.length_cons, Nat.add_le_add_iff_right] at h1
      simp only [rebuild_delta_go] at h2
      simp only [apply_delta_spec_loop, List.length_cons, apply_delta_go]
      by_cases hi : inst < 128
      · simp only [if_pos hi] at h2 ⊢
        by_cases h0 : inst = 0
        · simp [h0] at h2
        · simp only [if_neg h0] at h2 ⊢
          cases hte : takeExact inst rest with
          | none => rw [hte] at h2; cases h2
          | some p =>
            obtain ⟨dat, rest'⟩ := p
            rw [hte] at h2
            dsimp only at h2 ⊢
            have hlen : rest'.length ≤ rest.length := takeExact_len hte
            obtain ⟨t, hspec, hres⟩ := ih rest' (acc ++ dat) result (le_trans hlen h1) h2
            refine ⟨dat ++ t, ?_, by rw [hres, List.append_assoc]⟩
            rw [apply_delta_go_congr base rest.length rest'.length rest' hlen le_rfl]
            simp only [apply_delta_spec_loop] at hspec
            rw [hspec]
            rfl
      · simp only [if_neg hi] at h2 ⊢
        cases hp1 : read_partial_int rest 4 inst with
        | none => rw [hp1] at h2; cases h2
        | some p =>
          obtain ⟨off, present, r1⟩ := p
          rw [hp1] at h2
          dsimp only at h2 ⊢
          cases hp2 : read_partial_int r1 3 present with
          | none => rw [hp2] at h2; cases h2
          | some q =>
            obtain ⟨size0, p2, r2⟩ := q
            rw [hp2] at h2
            dsimp only at h2 ⊢
            have hlen : r2.length ≤ rest.length :=
              le_trans (read_partial_int_len hp2) (read_partial_int_len hp1)
            by_cases hr : off + (if size0 = 0 then 65536 else size0) ≤ base.length
            · rw [if_pos hr] at h2
              obtain ⟨t, hspec, hres⟩ := ih r2 _ result (le_trans hlen h1) h2
              rw [if_pos hr]
              refine ⟨(base.drop off).take (if size0 = 0 then 65536 else size0) ++ t, ?_,
                by rw [hres, List.append_assoc]⟩
              rw [apply_delta_go_congr base rest.length r2.length r2 hlen le_rfl]
              simp only [apply_delta_spec_loop] at hspec
              rw [hspec]
              rfl
            · rw [if_neg hr] at h2
              cases h2

theorem check_header_cases (input : List Nat) :
    check_header input =
      (if input.take 4 = [80, 65, 67, 75] then
        (if 8 ≤ input.length then
          (if be32 ((input.drop 4).take 4) = 2 then
            (if 12 ≤ input.length then
              .ok (be32 ((input.drop 8).take 4), input.take 12, input.drop 12)
             else .error .InvalidPackHeader)
           else .error .InvalidPackFile)
         else .error .InvalidPackHeader)
       else .error .InvalidPackHeader) := by
  unfold check_header
  by_cases h4 : 4 ≤ input.length
  case neg =>
    have hne : input.take 4 ≠ [80, 65, 67, 75] := by
      intro hco
      have := congrArg List.length hco
      simp [List.length_take] at this
      omega
    simp [takeExact, h4, hne]
  case pos =>
    rw [show takeExact 4 input = some (input.take 4, input.drop 4) from by simp [takeExact, h4]]
    dsimp only
    by_cases hm : input.take 4 = [80, 65, 67, 75]
    case neg => simp [hm]
    case pos =>
      rw [if_neg (fun hco => hco hm), if_pos hm]
      by_cases h8 : 8 ≤ input.length
      case neg =>
        have hd4 : ¬ 4 ≤ input.length - 4 := by omega
        simp [takeExact, hd4, h8]
      case pos =>
        rw [show takeExact 4 (input.drop 4) =
              some ((input.drop 4).take 4, (input.drop 4).drop 4) from by
            simp [takeExact, List.length_drop]
            omega]
        dsimp only
        rw [if_pos h8]
        by_cases hv : be32 ((input.drop 4).take 4) = 2
        case neg => rw [if_pos hv, if_neg hv]
        case pos =>
          rw [if_neg (fun hco => hco hv), if_pos hv]
          by_cases h12 : 12 ≤ input.length
          case neg =>
            have hd8 : ¬ 4 ≤ input.length - 8 := by omega
            simp [takeExact, hd8, h12]
          case pos =>
            rw [show takeExact 4 ((input.drop 4).drop 4) =
                  some (((input.drop 4).drop 4).take 4, ((input.drop 4).drop 4).drop 4) from by
                simp [takeExact, List.length_drop]
                omega]
            dsimp only
            rw [if_pos h12]
            have hdd : (input.drop 4).drop 4 = input.drop 8 := by
              simp [List.drop_drop]
            have hhd : input.take 4 ++ (input.drop 4).take 4 ++ (input.drop 8).take 4 =
                input.take 12 := by
              rw [List.append_assoc]
              rw [show (12 : Nat) = 4 + 8 from rfl, List.take_add]
              congr 1
              rw [show (8 : Nat) = 4 + 4 from rfl, List.take_add]
              simp [List.drop_drop]
            rw [hdd]
            have hdd12 : (input.drop 8).drop 4 = input.drop 12 := by
              simp [List.drop_drop]
            rw [hdd12, hhd]

theorem check_header_ok {input : List Nat} {n : Nat} {hd r : List Nat}
    (h : check_header input = .ok (n, hd, r)) :
    12 ≤ input.length ∧ n = be32 ((input.drop 8).take 4) ∧ hd = input.take 12 ∧
    r = input.drop 12 ∧ input.take 4 = [80, 65, 67, 75] ∧
    be32 ((input.drop 4).take 4) = 2 := by
  rw [check_header_cases input] at h
  split at h
  case isFalse => cases h
  case isTrue hm =>
    split at h
    case isFalse => cases h
    case isTrue h8 =>
      split at h
      case isFalse => cases h
      case isTrue hv =>
        split at h
        case isFalse => cases h
        case isTrue h12 =>
          simp only [Except.ok.injEq, Prod.mk.injEq] at h
          exact ⟨h12, h.1.symm, h.2.1.symm, h.2.2.symm, hm, hv⟩

theorem decode_pack_object_ok {sha1 : List Nat → List Nat}
    {inflate : List Nat → Option (List Nat × Nat)} {s : List Nat} {off : Nat}
    {obj : CacheObject} {off' : Nat} {r : List Nat}
    (h : decode_pack_object sha1 inflate s off = .ok (obj, off', r)) :
    r <:+ s ∧ obj.offset = off ∧ (obj.obj_type = .OffsetDelta → obj.base_offset ≤ off) := by
  unfold decode_pack_object at h
  dsimp only at h
  cases hrt : read_type_and_varint_size s with
  | none => rw [hrt] at h; cases h
  | some p =>
    obtain ⟨type_bits, size, consumed, s1⟩ := p
    rw [hrt] at h
    dsimp only at h
    have hsuf1 : s1 <:+ s := read_type_and_varint_size_suffix hrt
    cases hfu : ObjectType.from_u8 type_bits with
    | error e => rw [hfu] at h; cases h
    | ok t =>
      rw [hfu] at h
      dsimp only at h
      cases t with
      | OffsetDelta =>
        cases hoe : read_offset_encoding s1 with
        | none => rw [hoe] at h; cases h
        | some p =>
          obtain ⟨delta_offset, bytes, s2⟩ := p
          rw [hoe] at h
          dsimp only at h
          have hsuf2 : s2 <:+ s1 := read_offset_encoding_suffix hoe
          cases hdc : decompress_data inflate s2 size with
          | error e => rw [hdc] at h; cases h
          | ok q =>
            obtain ⟨data, raw_size⟩ := q
            rw [hdc] at h
            dsimp only at h
            by_cases hle : delta_offset ≤ off
            · rw [if_pos hle] at h
              cases hrd : reserve_delta_data data with
              | none => rw [hrd] at h; cases h
              | some d =>
                rw [hrd] at h
                dsimp only at h
                simp only [DResult.ok.injEq, Prod.mk.injEq] at h
                obtain ⟨hobj, _, hr⟩ := h
                subst hobj
                refine ⟨hr ▸ ((List.drop_suffix raw_size s2).trans (hsuf2.trans hsuf1)), rfl, ?_⟩
                intro _
                exact Nat.sub_le off delta_offset
            · rw [if_neg hle] at h
              cases h
      | HashDelta =>
        cases hte : takeExact 20 s1 with
        | none => rw [hte] at h; cases h
        | some p =>
          obtain ⟨buf_ref, s2⟩ := p
          rw [hte] at h
          dsimp only at h
          have hsuf2 : s2 <:+ s1 := by
            rw [(takeExact_eq hte).2.1]
            exact List.drop_suffix 20 s1
          cases hdc : decompress_data inflate s2 size with
          | error e => rw [hdc] at h; cases h
          | ok q =>
            obtain ⟨data, raw_size⟩ := q
            rw [hdc] at h
            dsimp only at h
            cases hrd : reserve_delta_data data with
            | none => rw [hrd] at h; cases h
            | some d =>
              rw [hrd] at h
              dsimp only at h
              simp only [DResult.ok.injEq, Prod.mk.injEq] at h
              obtain ⟨hobj, _, hr⟩ := h
              subst hobj
              refine ⟨hr ▸ ((List.drop_suffix raw_size s2).trans (hsuf2.trans hsuf1)), rfl, ?_⟩
              intro hco
              cases hco
      | Commit =>
        cases hdc : decompress_data inflate s1 size with
        | error e => rw [hdc] at h; cases h
        | ok q =>
          obtain ⟨data, raw_size⟩ := q
          rw [hdc] at h
          dsimp only at h
          simp only [DResult.ok.injEq, Prod.mk.injEq] at h
          obtain ⟨hobj, _, hr⟩ := h
          subst hobj
          refine ⟨hr ▸ ((List.drop_suffix raw_size s1).trans hsuf1), rfl, fun hco => ?_⟩
          cases hco
      | Tree =>
        cases hdc : decompress_data inflate s1 size with
        | error e => rw [hdc] at h; cases h
        | ok q =>
          obtain ⟨data, raw_size⟩ := q
          rw [hdc] at h
          dsimp only at h
          simp only [DResult.ok.injEq, Prod.mk.injEq] at h
          obtain ⟨hobj, _, hr⟩ := h
          subst hobj
          refine ⟨hr ▸ ((List.drop_suffix raw_size s1).trans hsuf1), rfl, fun hco => ?_⟩
          cases hco
      | Blob =>
        cases hdc : decompress_data inflate s1 size with
        | error e => rw [hdc] at h; cases h
        | ok q =>
          obtain ⟨data, raw_size⟩ := q
          rw [hdc] at h
          dsimp only at h
          simp only [DResult.ok.injEq, Prod.mk.injEq] at h
          obtain ⟨hobj, _, hr⟩ := h
          subst hobj
          refine ⟨hr ▸ ((List.drop_suffix raw_size s1).trans hsuf1), rfl, fun hco => ?_⟩
          cases hco
      | Tag =>
        cases hdc : decompress_data inflate s1 size with
        | error e => rw [hdc] at h; cases h
        | ok q =>
          obtain ⟨data, raw_size⟩ := q
          rw [hdc] at h
          dsimp only at h
          simp only [DResult.ok.injEq, Prod.mk.injEq] at h
          obtain ⟨hobj, _, hr⟩ := h
          subst hobj
          refine ⟨hr ▸ ((List.drop_suffix raw_size s1).trans hsuf1), rfl, fun hco => ?_⟩
          cases hco

theorem decode_entries_suffix (sha1 : List Nat → List Nat)
    (inflate : List Nat → Option (List Nat × Nat)) :
    ∀ (n : Nat) (s : List Nat) (off : Nat) (objs : List CacheObject) (r : List Nat)
      (off' : Nat),
      decode_entries sha1 inflate n s off = .ok (objs, r, off') → r <:+ s := by
  intro n
  induction n with
  | zero =>
    intro s off objs r off' h
    simp only [decode_entries, DResult.ok.injEq, Prod.mk.injEq] at h
    rw [← h.2.1]
  | succ m ih =>
    intro s off objs r off' h
    simp only [decode_entries] at h
    cases hdp : decode_pack_object sha1 inflate s off with
    | ok p =>
      obtain ⟨obj, off1, s1⟩ := p
      rw [hdp] at h
      dsimp only at h
      cases hrec : decode_entries sha1 inflate m s1 off1 with
      | ok q =>
        obtain ⟨objs2, s2, off2⟩ := q
        rw [hrec] at h
        dsimp only at h
        simp only [DResult.ok.injEq, Prod.mk.injEq] at h
        rw [← h.2.1]
        exact (ih s1 off1 objs2 s2 off2 hrec).trans (decode_pack_object_ok hdp).1
      | err e => rw [hrec] at h; cases h
      | panicErr e => rw [hrec] at h; cases h
      | ioPanic => rw [hrec] at h; cases h
    | err e => rw [hdp] at h; cases h
    | panicErr e => rw [hdp] at h; cases h
    | ioPanic => rw [hdp] at h; cases h

theorem rebuild_delta_ok_shape {sha1 : List Nat → List Nat} {d b r : CacheObject}
    (h : rebuild_delta sha1 d b = .ok r) :
    ∃ (base_size c1 : Nat) (s1 : List Nat) (result_size c2 : Nat) (s2 result : List Nat),
      read_varint_le d.data_decompress = some (base_size, c1, s1) ∧
      read_varint_le s1 = some (result_size, c2, s2) ∧
      b.data_decompress.length = base_size ∧
      rebuild_delta_loop b.data_decompress s2 [] = .ok result ∧
      result_size = result.length ∧
      r = { d with data_decompress := result, obj_type := b.obj_type,
                   hash := calculate_object_hash sha1 b.obj_type result,
                   mem_recorder := none } := by
  unfold rebuild_delta at h
  cases h1 : read_varint_le d.data_decompress with
  | none => rw [h1] at h; cases h
  | some p =>
    obtain ⟨base_size, c1, s1⟩ := p
    rw [h1] at h
    dsimp only at h
    cases h2 : read_varint_le s1 with
    | none => rw [h2] at h; cases h
    | some q =>
      obtain ⟨result_size, c2, s2⟩ := q
      rw [h2] at h
      dsimp only at h
      by_cases hb : b.data_decompress.length = base_size
      · rw [if_pos hb] at h
        cases hl : rebuild_delta_loop b.data_decompress s2 [] with
        | error e => rw [hl] at h; cases h
        | ok result =>
          rw [hl] at h
          dsimp only at h
          by_cases hs : result_size = result.length
          · rw [if_pos hs] at h
            simp only [Except.ok.injEq] at h
            exact ⟨base_size, c1, s1, result_size, c2, s2, result, rfl, h2, hb, hl, hs, h.symm⟩
          · rw [if_neg hs] at h; cases h
      · rw [if_neg hb] at h; cases h

/-- C1: for every delta record and every resolved base record, a successful
`rebuild_delta` returns a record whose `obj_type` equals the base record's
`obj_type`, whose `offset` equals the delta record's `offset`, whose content
is exactly the content produced by applying the delta's copy/insert
instruction stream to the base data (the spec-side `apply_delta_spec`), and
whose `hash` is the SHA-1 of the canonical header
`"<type> <len>\0"` followed by that content. -/
theorem rebuild_delta_spec (sha1 : List Nat → List Nat) (d b r : CacheObject)
    (h : rebuild_delta sha1 d b = .ok r) :
    r.obj_type = b.obj_type ∧ r.offset = d.offset ∧
    apply_delta_spec d.data_decompress b.data_decompress = some r.data_decompress ∧
    r.hash = sha1 (object_header b.obj_type r.data_decompress.length ++ r.data_decompress) := by
  obtain ⟨bs, c1, s1, rs, c2, s2, result, h1, h2, hb, hl, hs, hr⟩ := rebuild_delta_ok_shape h
  subst hr
  refine ⟨rfl, rfl, ?_, rfl⟩
  unfold apply_delta_spec
  rw [h1]
  dsimp only
  rw [h2]
  dsimp only
  rw [if_pos hb]
  simp only [rebuild_delta_loop] at hl
  obtain ⟨t, hspec, hres⟩ := rebuild_go_to_spec b.data_decompress s2.length s2 [] result le_rfl hl
  have ht : t = result := by simpa using hres.symm
  subst ht
  rw [hspec]
  dsimp only
  rw [if_pos hs.symm]

/-- Witness for C1 at a concrete input: the empty delta over an empty Blob
base, with the identity function standing in for SHA-1. -/
theorem rebuild_delta_spec_witness :
    ({ data_decompress := [], obj_type := .Blob, offset := 7,
       hash := [98, 108, 111, 98, 32, 48, 0] } : CacheObject).obj_type =
      ({ data_decompress := [], obj_type := .Blob } : CacheObject).obj_type ∧
    ({ data_decompress := [], obj_type := .Blob, offset := 7,
       hash := [98, 108, 111, 98, 32, 48, 0] } : CacheObject).offset =
      ({ data_decompress := [0, 0], offset := 7 } : CacheObject).offset ∧
    apply_delta_spec ({ data_decompress := [0, 0], offset := 7 } : CacheObject).data_decompress
        ({ data_decompress := [], obj_type := .Blob } : CacheObject).data_decompress =
      some ({ data_decompress := [], obj_type := .Blob, offset := 7,
              hash := [98, 108, 111, 98, 32, 48, 0] } : CacheObject).data_decompress ∧
    ({ data_decompress := [], obj_type := .Blob, offset := 7,
       hash := [98, 108, 111, 98, 32, 48, 0] } : CacheObject).hash =
      (fun l => l)
        (object_header ({ data_decompress := [], obj_type := .Blob } : CacheObject).obj_type
            ({ data_decompress := [], obj_type := .Blob, offset := 7,
               hash := [98, 108, 111, 98, 32, 48, 0] } : CacheObject).data_decompress.length ++
          ({ data_decompress := [], obj_type := .Blob, offset := 7,
             hash := [98, 108, 111, 98, 32, 48, 0] } : CacheObject).data_decompress) :=
  rebuild_delta_spec (fun l => l) { data_decompress := [0, 0], offset := 7 }
    { data_decompress := [], obj_type := .Blob }
    { data_decompress := [], obj_type := .Blob, offset := 7,
      hash := [98, 108, 111, 98, 32, 48, 0] } (by rfl)

/-- C10: a successful `rebuild_delta` takes `offset`, `base_offset` and
`base_ref` verbatim from the delta record and resets `mem_recorder` to
`none` (decode.rs lines 585-595, the struct-update syntax). -/
theorem rebuild_delta_frame (sha1 : List Nat → List Nat) (d b r : CacheObject)
    (h : rebuild_delta sha1 d b = .ok r) :
    r.offset = d.offset ∧ r.base_offset = d.base_offset ∧ r.base_ref = d.base_ref ∧
    r.mem_recorder = none := by
  obtain ⟨bs, c1, s1, rs, c2, s2, result, h1, h2, hb, hl, hs, hr⟩ := rebuild_delta_ok_shape h
  subst hr
  exact ⟨rfl, rfl, rfl, rfl⟩

/-- Witness for C10 at a concrete input: a delta record carrying a live
`mem_recorder` and nontrivial `base_offset` and `base_ref`. -/
theorem rebuild_delta_frame_witness :
    ({ base_offset := 5, base_ref := [1, 2, 3], data_decompress := [], obj_type := .Tag,
       offset := 11, hash := [7], mem_recorder := none } : CacheObject).offset =
      ({ base_offset := 5, base_ref := [1, 2, 3], data_decompress := [0, 0], offset := 11,
         mem_recorder := some 4 } : CacheObject).offset ∧
    ({ base_offset := 5, base_ref := [1, 2, 3], data_decompress := [], obj_type := .Tag,
       offset := 11, hash := [7], mem_recorder := none } : CacheObject).base_offset =
      ({ base_offset := 5, base_ref := [1, 2, 3], data_decompress := [0, 0], offset := 11,
         mem_recorder := some 4 } : CacheObject).base_offset ∧
    ({ base_offset := 5, base_ref := [1, 2, 3], data_decompress := [], obj_type := .Tag,
       offset := 11, hash := [7], mem_recorder := none } : CacheObject).base_ref =
      ({ base_offset := 5, base_ref := [1, 2, 3], data_decompress := [0, 0], offset := 11,
         mem_recorder := some 4 } : CacheObject).base_ref ∧
    ({ base_offset := 5, base_ref := [1, 2, 3], data_decompress := [], obj_type := .Tag,
       offset := 11, hash := [7], mem_recorder := none } : CacheObject).mem_recorder = none :=
  rebuild_delta_frame (fun _ => [7])
    { base_offset := 5, base_ref := [1, 2, 3], data_decompress := [0, 0], offset := 11,
      mem_recorder := some 4 }
    { data_decompress := [], obj_type := .Tag }
    { base_offset := 5, base_ref := [1, 2, 3], data_decompress := [], obj_type := .Tag,
      offset := 11, hash := [7], mem_recorder := none } (by rfl)

/-- C2 (amended): in the delta instruction loop, an insert instruction byte
equal to 0 and a copy instruction whose source range lies outside the base
data each fail with the `DeltaObjectError` panic; a final reconstructed
length different from the declared `result_size` fails the `assert_eq!`
assertion instead — a plain assertion panic, not `DeltaObjectError`
(decode.rs line 583). -/
theorem rebuild_delta_failure_kinds :
    (∀ (base rest acc : List Nat),
      rebuild_delta_loop base (0 :: rest) acc = .error .deltaObjectError) ∧
    (∀ (base : List Nat) (inst : Nat) (rest acc : List Nat) (off present : Nat)
       (r1 : List Nat) (size0 p2 : Nat) (r2 : List Nat),
      128 ≤ inst →
      read_partial_int rest 4 inst = some (off, present, r1) →
      read_partial_int r1 3 present = some (size0, p2, r2) →
      base.length < off + (if size0 = 0 then 65536 else size0) →
      rebuild_delta_loop base (inst :: rest) acc = .error .deltaObjectError) ∧
    (∀ (sha1 : List Nat → List Nat) (d b : CacheObject) (bs c1 : Nat) (s1 : List Nat)
       (rs c2 : Nat) (s2 result : List Nat),
      read_varint_le d.data_decompress = some (bs, c1, s1) →
      read_varint_le s1 = some (rs, c2, s2) →
      b.data_decompress.length = bs →
      rebuild_delta_loop b.data_decompress s2 [] = .ok result →
      result.length ≠ rs →
      rebuild_delta sha1 d b = .error .assertFail) := by
  refine ⟨?_, ?_, ?_⟩
  · intro base rest acc
    simp [rebuild_delta_loop, rebuild_delta_go]
  · intro base inst rest acc off present r1 size0 p2 r2 hmsb h1 h2 hout
    have hni : ¬ inst < 128 := by omega
    have hn0 : ¬ off + (if size0 = 0 then 65536 else size0) ≤ base.length := by omega
    simp only [rebuild_delta_loop, List.length_cons, rebuild_delta_go, if_neg hni]
    rw [h1]
    dsimp only
    rw [h2]
    dsimp only
    rw [if_neg hn0]
  · intro sha1 d b bs c1 s1 rs c2 s2 result h1 h2 hb hl hne
    unfold rebuild_delta
    rw [h1]
    dsimp only
    rw [h2]
    dsimp only
    rw [if_pos hb, hl]
    dsimp only
    rw [if_neg (fun hco => hne hco.symm)]

/-- Witness for C2 at concrete inputs: a lone zero insert byte, a lone copy
instruction over an empty base, and a delta declaring result size 5 whose
instruction stream produces 0 bytes. -/
theorem rebuild_delta_failure_kinds_witness :
    rebuild_delta_loop [] [0] [] = .error .deltaObjectError ∧
    rebuild_delta_loop [] [128] [] = .error .deltaObjectError ∧
    rebuild_delta (fun _ => []) { data_decompress := [0, 5] } { data_decompress := [] } =
      .error .assertFail :=
  ⟨rebuild_delta_failure_kinds.1 [] [] [],
   rebuild_delta_failure_kinds.2.1 [] 128 [] [] 0 8 [] 0 1 [] (by decide) (by rfl) (by rfl)
     (by decide),
   rebuild_delta_failure_kinds.2.2 (fun _ => []) { data_decompress := [0, 5] }
     { data_decompress := [] } 0 1 [5] 5 1 [] [] (by rfl) (by rfl) (by rfl) (by rfl)
     (by decide)⟩

/-- Counterexample for C2 as stated: a result-size mismatch fails via the
`assert_eq!` assertion, which is a different failure kind from the
`DeltaObjectError` panic that the claim asserts for it. -/
theorem rebuild_delta_size_mismatch_cex :
    rebuild_delta (fun _ => []) { data_decompress := [0, 5] } { data_decompress := [] } =
      .error .assertFail ∧ RErr.assertFail ≠ RErr.deltaObjectError :=
  ⟨by rfl, by decide⟩

/-- C7: a copy instruction whose decoded size field is 0 copies 0x10000
(65536) bytes from the base data (decode.rs lines 567-571). -/
theorem rebuild_copy_zero_size (base : List Nat) (inst : Nat) (rest acc : List Nat)
    (off present p2 : Nat) (r1 r2 : List Nat)
    (hmsb : 128 ≤ inst)
    (h1 : read_partial_int rest 4 inst = some (off, present, r1))
    (h2 : read_partial_int r1 3 present = some (0, p2, r2))
    (hrange : off + 65536 ≤ base.length) :
    rebuild_delta_loop base (inst :: rest) acc =
      rebuild_delta_loop base r2 (acc ++ (base.drop off).take 65536) := by
  have hni : ¬ inst < 128 := by omega
  simp only [rebuild_delta_loop, List.length_cons, rebuild_delta_go, if_neg hni]
  rw [h1]
  dsimp only
  rw [h2]
  dsimp only
  rw [if_pos (by simpa using hrange)]
  have hlen : r2.length ≤ rest.length :=
    le_trans (read_partial_int_len h2) (read_partial_int_len h1)
  simpa using rebuild_delta_go_congr base rest.length r2.length r2
    (acc ++ (base.drop off).take 65536) hlen le_rfl

/-- Witness for C7 at a concrete input: the copy instruction byte 0x80 (no
offset bytes, no size bytes, hence size field 0) over a 65536-byte base
copies the whole base. -/
theorem rebuild_copy_zero_size_witness :
    rebuild_delta_loop (List.replicate 65536 0) [128] [] =
      rebuild_delta_loop (List.replicate 65536 0) []
        (([] : List Nat) ++ ((List.replicate 65536 0).drop 0).take 65536) :=
  rebuild_copy_zero_size (List.replicate 65536 0) 128 [] [] 0 8 1 [] [] (by decide)
    (by rfl) (by rfl) (by rw [List.length_replicate])

/-- C3: after the entry loop, `decode` snapshots the running SHA-1 over
exactly the bytes consumed so far — the header plus all entry bytes, the
prefix of the input preceding the unread `rest` — before reading the 20-byte
trailer, and returns `InvalidPackFile` when the trailer differs from the
snapshot or when input bytes remain after the trailer. -/
theorem decode_trailer (sha1 : List Nat → List Nat)
    (inflate : List Nat → Option (List Nat × Nat)) (input : List Nat) (n : Nat)
    (hd r : List Nat) (objs : List CacheObject) (rest : List Nat) (off : Nat)
    (h1 : check_header input = .ok (n, hd, r))
    (h2 : decode_entries sha1 inflate n r 12 = .ok (objs, rest, off))
    (h3 : 20 ≤ rest.length) :
    input.take (input.length - rest.length) ++ rest = input ∧
    decode sha1 inflate input =
      (if sha1 (input.take (input.length - rest.length)) = rest.take 20 then
        (if rest.drop 20 = [] then .ok (objs, rest.take 20)
         else .err .InvalidPackFile)
       else .err .InvalidPackFile) := by
  have hr12 : r = input.drop 12 := (check_header_ok h1).2.2.2.1
  have hsuf : rest <:+ input := by
    have hs := decode_entries_suffix sha1 inflate n r 12 objs rest off h2
    rw [hr12] at hs
    exact hs.trans (List.drop_suffix 12 input)
  obtain ⟨t, ht⟩ := hsuf
  have htake : input.take (input.length - rest.length) = t := by
    rw [← ht]
    simp [List.length_append, List.take_left]
  refine ⟨by rw [htake, ht], ?_⟩
  unfold decode
  rw [h1]
  dsimp only
  rw [h2]
  dsimp only
  rw [show takeExact 20 rest = some (rest.take 20, rest.drop 20) from by
    simp [takeExact, h3]]
  dsimp only
  by_cases hE : sha1 (input.take (input.length - rest.length)) = rest.take 20
  · rw [if_neg (fun hco => hco hE), if_pos hE]
    by_cases hEmp : rest.drop 20 = []
    · have : is_eof (rest.drop 20) = true := by simp [is_eof, hEmp]
      rw [if_neg (fun hco => hco this), if_pos hEmp]
    · have : ¬ is_eof (rest.drop 20) = true := by simp [is_eof, hEmp]
      rw [if_pos this, if_neg hEmp]
  · rw [if_pos hE, if_neg hE]

/-- Witness for C3 at a concrete input: an object-count-zero pack whose
20-byte trailer matches the (concretely chosen) hash function on the 12
header bytes, decoded successfully. -/
theorem decode_trailer_witness :
    decode (fun _ => List.replicate 20 5) (fun _ => none)
        ([80, 65, 67, 75, 0, 0, 0, 2, 0, 0, 0, 0] ++ List.replicate 20 5) =
      .ok ([], List.replicate 20 5) := by
  have h := decode_trailer (fun _ => List.replicate 20 5) (fun _ => none)
      ([80, 65, 67, 75, 0, 0, 0, 2, 0, 0, 0, 0] ++ List.replicate 20 5) 0
      [80, 65, 67, 75, 0, 0, 0, 2, 0, 0, 0, 0] (List.replicate 20 5) []
      (List.replicate 20 5) 12 (by rfl) (by rfl) (by decide)
  rw [h.2]
  decide

/-- C4 (amended): an input whose first four bytes are `PACK` but whose
big-endian version word differs from 2 makes `check_header` fail with the
`InvalidPackFile` kind (decode.rs line 135), not `InvalidPackHeader`. -/
theorem check_header_version (input : List Nat)
    (h4 : input.take 4 = [80, 65, 67, 75]) (h8 : 8 ≤ input.length)
    (hv : be32 ((input.drop 4).take 4) ≠ 2) :
    check_header input = .error .InvalidPackFile := by
  rw [check_header_cases input, if_pos h4, if_pos h8, if_neg hv]

/-- Witness for C4 at a concrete input: magic `PACK` with version word 3. -/
theorem check_header_version_witness :
    check_header [80, 65, 67, 75, 0, 0, 0, 3] = .error .InvalidPackFile :=
  check_header_version [80, 65, 67, 75, 0, 0, 0, 3] (by decide) (by decide) (by decide)

/-- Counterexample for C4 as stated: on magic `PACK` with version word 1,
`check_header` returns the `InvalidPackFile` kind, which differs from the
`InvalidPackHeader` kind the claim asserts. -/
theorem check_header_version_cex :
    ([80, 65, 67, 75, 0, 0, 0, 1, 0, 0, 0, 0] : List Nat).take 4 = [80, 65, 67, 75] ∧
    be32 ((([80, 65, 67, 75, 0, 0, 0, 1, 0, 0, 0, 0] : List Nat).drop 4).take 4) = 1 ∧
    check_header [80, 65, 67, 75, 0, 0, 0, 1, 0, 0, 0, 0] = .error .InvalidPackFile ∧
    GitError.InvalidPackFile ≠ GitError.InvalidPackHeader :=
  ⟨by decide, by decide, by rfl, by decide⟩

/-- C5: on an `OffsetDelta` entry whose delta-offset exceeds the entry's
starting offset, `decode_pack_object` does not return the constructed
`InvalidObjectInfo` error to the caller: the source `.unwrap()`s it
(decode.rs lines 271-276), a panic carrying the `InvalidObjectInfo` kind.
Concretely, at entry offset 12 with offset-varint 13. -/
theorem decode_pack_object_offset_underflow :
    decode_pack_object (fun _ => List.replicate 20 0) (fun _ => some ([0, 0], 2))
        [98, 13, 9, 9] 12 = .panicErr .InvalidObjectInfo := by rfl

/-- C6: `decompress_data` returns the inflated content together with the
consumed input byte count reported by the inflater when the inflated length
equals `expected_size`, and an `InvalidPackFile` error when the length
differs or the inflater fails. -/
theorem decompress_data_spec (inflate : List Nat → Option (List Nat × Nat))
    (pack : List Nat) (expected_size : Nat) :
    (∀ (buf : List Nat) (c : Nat), inflate pack = some (buf, c) →
      buf.length = expected_size →
      decompress_data inflate pack expected_size = .ok (buf, c)) ∧
    (∀ (buf : List Nat) (c : Nat), inflate pack = some (buf, c) →
      buf.length ≠ expected_size →
      decompress_data inflate pack expected_size = .error .InvalidPackFile) ∧
    (inflate pack = none →
      decompress_data inflate pack expected_size = .error .InvalidPackFile) := by
  refine ⟨?_, ?_, ?_⟩
  · intro buf c hi hlen
    simp [decompress_data, hi, hlen]
  · intro buf c hi hlen
    simp [decompress_data, hi, hlen]
  · intro hi
    simp [decompress_data, hi]

/-- Witness for C6 at a concrete input: the thirteen ASCII bytes of
`Hello, world!` with declared expected size 13 and a reported consumed count
of 21. -/
theorem decompress_data_spec_witness :
    decompress_data
        (fun _ => some ([72, 101, 108, 108, 111, 44, 32, 119, 111, 114, 108, 100, 33], 21))
        [1, 2, 3] 13 =
      .ok ([72, 101, 108, 108, 111, 44, 32, 119, 111, 114, 108, 100, 33], 21) :=
  (decompress_data_spec
      (fun _ => some ([72, 101, 108, 108, 111, 44, 32, 119, 111, 114, 108, 100, 33], 21))
      [1, 2, 3] 13).1
    [72, 101, 108, 108, 111, 44, 32, 119, 111, 114, 108, 100, 33] 21 (by rfl) (by decide)

/-- C8 (amended): `check_header` reads exactly the first 12 bytes.  A short
input fails with `InvalidPackHeader` — except that an input of at least 8
bytes carrying magic `PACK` and a version word other than 2 fails with
`InvalidPackFile` first; a wrong magic fails with `InvalidPackHeader`; on
success it returns the object count decoded big-endian from bytes 8..12
together with the 12 consumed header bytes, leaving exactly the input from
byte 12 on unread. -/
theorem check_header_spec (input : List Nat) :
    (input.length < 12 →
      (input.take 4 ≠ [80, 65, 67, 75] ∨ input.length < 8 ∨
        be32 ((input.drop 4).take 4) = 2) →
      check_header input = .error .InvalidPackHeader) ∧
    (input.take 4 ≠ [80, 65, 67, 75] → check_header input = .error .InvalidPackHeader) ∧
    (12 ≤ input.length → input.take 4 = [80, 65, 67, 75] →
      be32 ((input.drop 4).take 4) = 2 →
      check_header input = .ok (be32 ((input.drop 8).take 4), input.take 12, input.drop 12)) := by
  refine ⟨?_, ?_, ?_⟩
  · intro h12 hdis
    rw [check_header_cases input]
    by_cases hm : input.take 4 = [80, 65, 67, 75]
    · rw [if_pos hm]
      by_cases h8 : 8 ≤ input.length
      · rw [if_pos h8]
        have hv : be32 ((input.drop 4).take 4) = 2 := by
          rcases hdis with hc | hc | hc
          · exact absurd hm hc
          · omega
          · exact hc
        rw [if_pos hv, if_neg (by omega)]
      · rw [if_neg h8]
    · rw [if_neg hm]
  · intro hm
    rw [check_header_cases input, if_neg hm]
  · intro h12 hm hv
    rw [check_header_cases input, if_pos hm, if_pos (by omega), if_pos hv, if_pos h12]

/-- Witness for C8 at concrete inputs: a 10-byte truncated header with
version 2, a wrong magic, and a complete 12-byte header with object count
263. -/
theorem check_header_spec_witness :
    check_header [80, 65, 67, 75, 0, 0, 0, 2, 0, 0] = .error .InvalidPackHeader ∧
    check_header [9, 9, 9, 9] = .error .InvalidPackHeader ∧
    check_header [80, 65, 67, 75, 0, 0, 0, 2, 0, 0, 1, 7] =
      .ok (263, [80, 65, 67, 75, 0, 0, 0, 2, 0, 0, 1, 7], []) := by
  refine ⟨(check_header_spec [80, 65, 67, 75, 0, 0, 0, 2, 0, 0]).1 (by decide)
      (by right; right; decide), (check_header_spec [9, 9, 9, 9]).2.1 (by decide), ?_⟩
  rw [(check_header_spec [80, 65, 67, 75, 0, 0, 0, 2, 0, 0, 1, 7]).2.2 (by decide)
    (by decide) (by decide)]
  rfl

/-- Counterexample for C8 as stated: the 8-byte input `PACK` + version 1 is
shorter than 12 bytes, yet `check_header` fails with `InvalidPackFile`, not
`InvalidPackHeader`. -/
theorem check_header_short_cex :
    ([80, 65, 67, 75, 0, 0, 0, 1] : List Nat).length < 12 ∧
    check_header [80, 65, 67, 75, 0, 0, 0, 1] = .error .InvalidPackFile ∧
    GitError.InvalidPackFile ≠ GitError.InvalidPackHeader :=
  ⟨by decide, by rfl, by decide⟩

/-- C9 (amended): every `OffsetDelta` record successfully constructed by
`decode_pack_object` satisfies `base_offset ≤ offset`; the construction only
rejects underflow, so `base_offset = 0` (delta-offset equal to the entry
offset) and `base_offset = offset` (delta-offset 0) both pass. -/
theorem offset_delta_base_le_offset (sha1 : List Nat → List Nat)
    (inflate : List Nat → Option (List Nat × Nat)) (s : List Nat) (off : Nat)
    (obj : CacheObject) (off' : Nat) (r : List Nat)
    (h : decode_pack_object sha1 inflate s off = .ok (obj, off', r))
    (ht : obj.obj_type = .OffsetDelta) :
    obj.base_offset ≤ obj.offset := by
  obtain ⟨_, hoff, himp⟩ := decode_pack_object_ok h
  rw [hoff]
  exact himp ht

/-- Witness for C9 at a concrete input: an `OffsetDelta` entry at offset 12
whose offset-varint is 0, giving `base_offset = offset = 12`. -/
theorem offset_delta_base_le_offset_witness :
    ({ base_offset := 12, data_decompress := [0, 0], obj_type := .OffsetDelta,
       offset := 12, mem_recorder := none } : CacheObject).base_offset ≤
      ({ base_offset := 12, data_decompress := [0, 0], obj_type := .OffsetDelta,
         offset := 12, mem_recorder := none } : CacheObject).offset :=
  offset_delta_base_le_offset (fun _ => List.replicate 20 0)
    (fun _ => some ([0, 0], 2)) [98, 0, 9, 9] 12
    { base_offset := 12, data_decompress := [0, 0], obj_type := .OffsetDelta,
      offset := 12, mem_recorder := none } 16 [] (by rfl) (by rfl)

/-- Counterexample for C9 as stated: an offset-varint of 0 gives a record
with `base_offset = offset = 12` (violating the strict upper bound), and an
offset-varint equal to the entry offset gives `base_offset = 0` (violating
the strict lower bound); both records are constructed successfully. -/
theorem offset_delta_invariant_cex :
    decode_pack_object (fun _ => List.replicate 20 0) (fun _ => some ([0, 0], 2))
        [98, 0, 9, 9] 12 =
      .ok ({ base_offset := 12, data_decompress := [0, 0], obj_type := .OffsetDelta,
             offset := 12, mem_recorder := none }, 16, []) ∧
    ¬ ((12 : Nat) < 12) ∧
    decode_pack_object (fun _ => List.replicate 20 0) (fun _ => some ([0, 0], 2))
        [98, 12, 9, 9] 12 =
      .ok ({ base_offset := 0, data_decompress := [0, 0], obj_type := .OffsetDelta,
             offset := 12, mem_recorder := none }, 16, []) ∧
    ¬ ((0 : Nat) < 0) :=
  ⟨by rfl, by decide, by rfl, by decide⟩

end MercuryPack
